import Mathlib

/-!
Verification of the Go RPC chatroom (server.go, client.go).

The server keeps a `history []string` guarded by a mutex.  Since the lock
serializes every call, each RPC handler is modelled as a pure function on
the transcript state (`List String`); a concurrent execution of calls is
modelled as a sequential execution in an arbitrary serialization order
(a permutation of the calls).  The Go `error` result is modelled as an
`Option String` (`none` = `nil`).
-/

/-- MessageArgs from server.go / client.go: arguments for sending a message. -/
structure MessageArgs where
  Name : String
  Message : String
deriving DecidableEq, Repr

/-- HistoryReply from server.go / client.go: the response containing chat history. -/
structure HistoryReply where
  History : List String
deriving DecidableEq, Repr

/-- Result of one server RPC handler: the server's transcript after the call,
the reply written into the out-parameter, and the returned Go error. -/
structure CallResult where
  history : List String
  reply : HistoryReply
  err : Option String
deriving DecidableEq, Repr

/-- The formatted line built in SendMessage: `args.Name + ": " + args.Message`. -/
def formatMessage (args : MessageArgs) : String :=
  args.Name ++ ": " ++ args.Message

/-- SendMessage (server.go lines 28-44): under the lock, append the formatted
line to the history, copy the whole history into the reply, return nil. -/
def sendMessage (s : List String) (args : MessageArgs) : CallResult :=
  let formattedMsg := formatMessage args
  let history := s ++ [formattedMsg]
  { history := history, reply := { History := history }, err := none }

/-- GetHistory (server.go lines 47-56): under the lock, copy the whole history
into the reply, return nil; the history itself is untouched. -/
def getHistory (s : List String) : CallResult :=
  { history := s, reply := { History := s }, err := none }

/-- The zero-value ChatServer made by `new(ChatServer)` in main: nil history. -/
def newChatServer : List String := []

/-- One serialized RPC operation on the shared transcript. -/
inductive Op where
  | submit (args : MessageArgs)
  | fetch
deriving DecidableEq, Repr

/-- State transition of the transcript under one serialized operation. -/
def applyOp (s : List String) : Op → List String
  | .submit args => (sendMessage s args).history
  | .fetch => (getHistory s).history

/-- Transcript after executing a list of Submit calls in a given serialization
order, starting from transcript `s`. -/
def runSubmits (s : List String) (calls : List MessageArgs) : List String :=
  calls.foldl (fun h a => (sendMessage h a).history) s

/-- The client action decided for one raw input line (client.go lines 44-60):
trim the line; on exactly "exit" break out without calling SendMessage,
otherwise call SendMessage with the trimmed message. -/
inductive ClientAction where
  | quit
  | submit (args : MessageArgs)
deriving DecidableEq, Repr

/-- Model of `strings.TrimSpace`: drop whitespace characters from both ends. -/
def trimSpace (s : String) : String :=
  ⟨((s.data.dropWhile Char.isWhitespace).reverse.dropWhile Char.isWhitespace).reverse⟩

/-- One iteration of the client chat loop, given the user's name and the raw
line read from stdin. -/
def clientStep (name rawLine : String) : ClientAction :=
  let message := trimSpace rawLine
  if message = "exit" then .quit else .submit { Name := name, Message := message }

-- Memory model for the defensive-copy behaviour of the reply slices.

/-- A store of allocated string arrays; the index in the list is the array id. -/
def Store := List (List String)

/-- Contents of array `i` (empty for an unallocated id). -/
def Store.read (σ : Store) (i : Nat) : List String := List.getD σ i []

/-- Overwrite the contents of array `i` (models in-place slice mutation). -/
def Store.write (σ : Store) (i : Nat) (a : List String) : Store := List.set σ i a

/-- Allocate a fresh array holding `a` (models `make` + `copy`), returning the
new store and the fresh id. -/
def Store.alloc (σ : Store) (a : List String) : Store × Nat :=
  (List.append σ [a], List.length σ)

/-- Number of allocated arrays. -/
def Store.size (σ : Store) : Nat := List.length σ

/-- Server state in the memory model: the store and the id of the array backing
`s.history`. -/
structure SrvState where
  store : Store
  histId : Nat

/-- SendMessage in the memory model: extend the history array (conservatively
modelled as an in-place write to the backing array), then allocate a fresh
array and copy the whole history into it for the reply
(`reply.History = make([]string, len(s.history)); copy(reply.History, s.history)`). -/
def sendMessageM (st : SrvState) (args : MessageArgs) : SrvState × Nat :=
  let history := (st.store.read st.histId) ++ [formatMessage args]
  let σ1 := st.store.write st.histId history
  let p := σ1.alloc history
  ({ store := p.1, histId := st.histId }, p.2)

/-- GetHistory in the memory model: allocate a fresh array and copy the whole
history into it for the reply; the history array is untouched. -/
def getHistoryM (st : SrvState) : SrvState × Nat :=
  let p := st.store.alloc (st.store.read st.histId)
  ({ store := p.1, histId := st.histId }, p.2)

-- Supporting lemmas (not claim theorems).

lemma runSubmits_eq_append (calls : List MessageArgs) :
    ∀ s : List String, runSubmits s calls = s ++ calls.map formatMessage := by
  induction calls with
  | nil => intro s; simp [runSubmits]
  | cons a t ih =>
      intro s
      have hstep : (sendMessage s a).history = s ++ [formatMessage a] := rfl
      simp only [runSubmits, List.foldl_cons, List.map_cons] at *
      rw [hstep, ih (s ++ [formatMessage a])]
      simp

lemma applyOp_eq_append (s : List String) (op : Op) :
    ∃ t, applyOp s op = s ++ t := by
  cases op with
  | submit args => exact ⟨[formatMessage args], rfl⟩
  | fetch => exact ⟨[], by simp [applyOp, getHistory]⟩

lemma foldl_applyOp_eq_append (ops : List Op) :
    ∀ s : List String, ∃ t, List.foldl applyOp s ops = s ++ t := by
  induction ops with
  | nil => intro s; exact ⟨[], by simp⟩
  | cons op rest ih =>
      intro s
      obtain ⟨t1, h1⟩ := applyOp_eq_append s op
      obtain ⟨t2, h2⟩ := ih (applyOp s op)
      exact ⟨t1 ++ t2, by rw [List.foldl_cons, h2, h1, List.append_assoc]⟩

lemma Store.size_write (σ : Store) (i : Nat) (a : List String) :
    (σ.write i a).size = σ.size := by
  simp [Store.write, Store.size]

lemma Store.read_write_ne (σ : Store) (i j : Nat) (a : List String) (h : j ≠ i) :
    (σ.write i a).read j = σ.read j := by
  simp [Store.write, Store.read, List.getD, List.getElem?_set_ne (Ne.symm h)]

lemma Store.read_write_self (σ : Store) (i : Nat) (a : List String) (h : i < σ.size) :
    (σ.write i a).read i = a := by
  simp [Store.write, Store.read, List.getD, List.getElem?_set_self, Store.size] at *
  simp [List.getElem?_set_self, h]

lemma Store.read_alloc_old (σ : Store) (a : List String) (j : Nat) (h : j < σ.size) :
    (σ.alloc a).1.read j = σ.read j := by
  simp only [Store.alloc, Store.read, Store.size] at *
  rw [List.getD_eq_getElem?_getD, List.getD_eq_getElem?_getD, List.append_eq,
    List.getElem?_append_left h]

lemma Store.read_alloc_new (σ : Store) (a : List String) :
    (σ.alloc a).1.read (σ.alloc a).2 = a := by
  simp [Store.alloc, Store.read, List.getD]

-- Claim theorems.

/-- C1: for every transcript h and all strings sender, text, SendMessage
returns a reply whose lines are exactly h followed by the single new line
sender ++ ": " ++ text, that new line is the last element of the reply, and
the transcript state after the call equals the returned reply. -/
theorem sendMessage_appends_and_snapshots (h : List String) (sender text : String) :
    (sendMessage h ⟨sender, text⟩).reply.History = h ++ [sender ++ ": " ++ text] ∧
    ((sendMessage h ⟨sender, text⟩).reply.History).getLast? = some (sender ++ ": " ++ text) ∧
    (sendMessage h ⟨sender, text⟩).history = (sendMessage h ⟨sender, text⟩).reply.History := by
  refine ⟨rfl, ?_, rfl⟩
  simp [sendMessage, formatMessage]

/-- C2: append-only invariant — every single operation extends the transcript
on the right (the old transcript stays an unchanged initial segment), and over
any sequence of operations the transcript stays an extension of the initial
one, so its length is monotonically non-decreasing. -/
theorem transcript_append_only (h : List String) :
    (∀ op, ∃ t, applyOp h op = h ++ t) ∧
    (∀ ops : List Op, (∃ t, List.foldl applyOp h ops = h ++ t) ∧
      h.length ≤ (List.foldl applyOp h ops).length) := by
  refine ⟨applyOp_eq_append h, fun ops => ?_⟩
  obtain ⟨t, ht⟩ := foldl_applyOp_eq_append ops h
  exact ⟨⟨t, ht⟩, by rw [ht]; simp⟩

/-- C3: N concurrent Submit calls that all complete, serialized by the lock in
an arbitrary order (any permutation of the calls), leave a final transcript of
exactly N lines whose multiset is exactly the formatted lines of the calls —
no line duplicated or dropped. -/
theorem concurrent_submits_exact (calls order : List MessageArgs)
    (hperm : order.Perm calls) :
    (runSubmits [] order).length = calls.length ∧
    (runSubmits [] order).Perm (calls.map formatMessage) := by
  have he := runSubmits_eq_append order []
  rw [List.nil_append] at he
  constructor
  · rw [he, List.length_map]
    exact hperm.length_eq
  · rw [he]
    exact hperm.map formatMessage

/-- Witness for C3 at two concrete calls executed in swapped order. -/
theorem concurrent_submits_exact_witness :
    ([⟨"bob", "hello"⟩, ⟨"alice", "hi"⟩] : List MessageArgs).Perm
      [⟨"alice", "hi"⟩, ⟨"bob", "hello"⟩] ∧
    ((runSubmits [] [⟨"bob", "hello"⟩, ⟨"alice", "hi"⟩]).length =
        ([(⟨"alice", "hi"⟩ : MessageArgs), ⟨"bob", "hello"⟩]).length ∧
      (runSubmits [] [⟨"bob", "hello"⟩, ⟨"alice", "hi"⟩]).Perm
        (([(⟨"alice", "hi"⟩ : MessageArgs), ⟨"bob", "hello"⟩]).map formatMessage)) :=
  ⟨List.Perm.swap _ _ _,
    concurrent_submits_exact [⟨"alice", "hi"⟩, ⟨"bob", "hello"⟩]
      [⟨"bob", "hello"⟩, ⟨"alice", "hi"⟩] (List.Perm.swap _ _ _)⟩

/-- C4: every reply slice is a defensive copy — a later SendMessage leaves a
previously returned snapshot array untouched, the reply array of a call is a
fresh array distinct from the history array, and overwriting a returned reply
array never changes the server's history contents; likewise for GetHistory. -/
theorem reply_defensive_copy (st : SrvState) (args : MessageArgs) (j : Nat)
    (v : List String)
    (hh : st.histId < st.store.size) (hj : j < st.store.size) (hne : j ≠ st.histId) :
    ((sendMessageM st args).1.store.read j = st.store.read j) ∧
    ((sendMessageM st args).2 ≠ (sendMessageM st args).1.histId) ∧
    ((((sendMessageM st args).1.store.write (sendMessageM st args).2 v).read
        (sendMessageM st args).1.histId) =
      (sendMessageM st args).1.store.read (sendMessageM st args).1.histId) ∧
    ((getHistoryM st).1.store.read j = st.store.read j) ∧
    ((((getHistoryM st).1.store.write (getHistoryM st).2 v).read
        (getHistoryM st).1.histId) =
      (getHistoryM st).1.store.read (getHistoryM st).1.histId) := by
  have h1 : (sendMessageM st args).1.store =
      ((st.store.write st.histId ((st.store.read st.histId) ++ [formatMessage args])).alloc
        ((st.store.read st.histId) ++ [formatMessage args])).1 := rfl
  have h2 : (sendMessageM st args).2 = st.store.size := by
    simp [sendMessageM, Store.alloc, Store.write, Store.size]
  have h3 : (sendMessageM st args).1.histId = st.histId := rfl
  have h4 : (getHistoryM st).1.store = (st.store.alloc (st.store.read st.histId)).1 := rfl
  have h5 : (getHistoryM st).2 = st.store.size := rfl
  have h6 : (getHistoryM st).1.histId = st.histId := rfl
  refine ⟨?_, ?_, ?_, ?_, ?_⟩
  · rw [h1, Store.read_alloc_old _ _ _ (by rw [Store.size_write]; exact hj),
      Store.read_write_ne _ _ _ _ hne]
  · rw [h2, h3]
    exact ne_of_gt hh
  · rw [h2, h3]
    exact Store.read_write_ne _ _ _ _ (ne_of_lt hh)
  · rw [h4]
    exact Store.read_alloc_old _ _ _ hj
  · rw [h5, h6]
    exact Store.read_write_ne _ _ _ _ (ne_of_lt hh)

/-- Concrete server state for the defensive-copy witness: the history array at
id 0 and one previously returned snapshot array at id 1. -/
def demoSrv : SrvState := ⟨[["a: x"], ["a: x"]], 0⟩

/-- Witness for C4 at the concrete state demoSrv. -/
theorem reply_defensive_copy_witness :
    (demoSrv.histId < demoSrv.store.size ∧ 1 < demoSrv.store.size ∧
      (1 : Nat) ≠ demoSrv.histId) ∧
    (((sendMessageM demoSrv ⟨"b", "y"⟩).1.store.read 1 = demoSrv.store.read 1) ∧
      ((sendMessageM demoSrv ⟨"b", "y"⟩).2 ≠ (sendMessageM demoSrv ⟨"b", "y"⟩).1.histId) ∧
      ((((sendMessageM demoSrv ⟨"b", "y"⟩).1.store.write (sendMessageM demoSrv ⟨"b", "y"⟩).2
            ["hacked"]).read (sendMessageM demoSrv ⟨"b", "y"⟩).1.histId) =
        (sendMessageM demoSrv ⟨"b", "y"⟩).1.store.read
          (sendMessageM demoSrv ⟨"b", "y"⟩).1.histId) ∧
      ((getHistoryM demoSrv).1.store.read 1 = demoSrv.store.read 1) ∧
      ((((getHistoryM demoSrv).1.store.write (getHistoryM demoSrv).2 ["hacked"]).read
          (getHistoryM demoSrv).1.histId) =
        (getHistoryM demoSrv).1.store.read (getHistoryM demoSrv).1.histId)) :=
  ⟨⟨by decide, by decide, by decide⟩,
    reply_defensive_copy demoSrv ⟨"b", "y"⟩ 1 ["hacked"] (by decide) (by decide) (by decide)⟩

/-- C5: neither handler ever returns an error — for every transcript state and
any argument strings (empty included), both return the Go nil error. -/
theorem handlers_never_error (h : List String) (args : MessageArgs) :
    (sendMessage h args).err = none ∧ (getHistory h).err = none :=
  ⟨rfl, rfl⟩

/-- C6: GetHistory never mutates state — any number of Fetch calls leaves the
transcript, and in particular its length, exactly unchanged. -/
theorem fetch_never_mutates (h : List String) (n : Nat) :
    (getHistory h).history = h ∧
    Nat.iterate (fun s => (getHistory s).history) n h = h ∧
    (Nat.iterate (fun s => (getHistory s).history) n h).length = h.length := by
  have hfix := Function.iterate_fixed (f := fun s => (getHistory s).history) (x := h) rfl n
  exact ⟨rfl, hfix, by rw [hfix]⟩

/-- C7: idempotent read — two Fetch calls with no intervening Submit return
identical snapshots: same reply, hence same length, content and order. -/
theorem fetch_idempotent (h : List String) :
    (getHistory ((getHistory h).history)).reply = (getHistory h).reply ∧
    (getHistory ((getHistory h).history)).reply.History = (getHistory h).reply.History ∧
    (getHistory ((getHistory h).history)).reply.History.length =
      (getHistory h).reply.History.length :=
  ⟨rfl, rfl, rfl⟩

/-- C8: no input validation — SendMessage with empty sender and empty text
succeeds on every transcript state and the reply's last line is literally
": " (empty sender, colon, space, empty text). -/
theorem submit_no_validation (h : List String) :
    (sendMessage h ⟨"", ""⟩).err = none ∧
    (sendMessage h ⟨"", ""⟩).reply.History.getLast? = some ": " := by
  refine ⟨rfl, ?_⟩
  simp [sendMessage, formatMessage]

/-- C9: client reserved input — the client disconnects without calling Submit
exactly when the trimmed input line equals the literal "exit" (case-sensitive,
exact); any other input, whitespace-only included, is submitted as a message
with the trimmed line as its text. -/
theorem client_exit_reserved (name line : String) :
    (clientStep name line = ClientAction.quit ↔ trimSpace line = "exit") ∧
    (trimSpace line ≠ "exit" →
      clientStep name line = ClientAction.submit ⟨name, trimSpace line⟩) := by
  by_cases hx : trimSpace line = "exit" <;> simp [clientStep, hx]

/-- Witness for C9: an input differing from "exit" only in case is submitted,
not treated as a disconnect. -/
theorem client_exit_reserved_witness :
    trimSpace "Exit" ≠ "exit" ∧
    clientStep "alice" "Exit" = ClientAction.submit ⟨"alice", trimSpace "Exit"⟩ :=
  ⟨by decide, (client_exit_reserved "alice" "Exit").2 (by decide)⟩

/-- C10: on a freshly started server with no prior Submit, GetHistory returns
an empty snapshot (length 0) with the nil error. -/
theorem fresh_server_fetch_empty :
    (getHistory newChatServer).reply.History = [] ∧
    (getHistory newChatServer).reply.History.length = 0 ∧
    (getHistory newChatServer).err = none :=
  ⟨rfl, rfl, rfl⟩
